import Mathlib

/-!
Verification development for the input-filtering utility of this repository
(`src/global-filter.ts`).

The sanitizers `filterInput` and `GlobalInputFilter.filterPastedText` build a
JavaScript regular expression `[...]` (a character class) from the configured
forbidden characters, escaping each character occurring in the literal class
`[.*+?^${}()|[\]\\]`, and delete every match from the text.  We embed:

* the token stream produced by the escaping step (`RTok`, `escTok`,
  `classTokens`);
* the semantics JavaScript gives the resulting character class
  (`classRanges`): tokens are read left to right, an unescaped `-` between two
  class atoms forms a codepoint range, a descending range is a `SyntaxError`
  (modelled as `none`, i.e. `new RegExp` throws), and everything else matches
  literally;
* global replacement by the empty string (`removeClass`), which for a
  single-character class is exactly a filter over the characters of the text.

Strings are modelled through their character lists; JavaScript string indices
are UTF-16 code units, which for the basic-multilingual-plane characters used
throughout coincide with characters, and `Char` comparison by codepoint
coincides with JavaScript's code-unit comparison there.

The stateful `GlobalInputFilter` class is embedded further below as explicit
state passing: the document's listener registry is a list of
(event type, handler identity) pairs, handler identities are allocated
fresh when `init` creates the closures, and the two event handlers are pure
functions of the instance's current state and the event data.
-/

/-- Characters escaped by the source's per-character replace
`char.replace(/[.*+?^${}()|[\]\\]/g, "\\$&")` in `filterInput`
(src/global-filter.ts line 200). Note that `-` is absent. -/
def escapeSet : List Char :=
  ['.', '*', '+', '?', '^', '$', '\x7b', '\x7d', '(', ')', '|', '[', ']', '\\']

/-- A token of the generated character-class body: a backslash-escaped
character or a bare character. -/
inductive RTok where
  | esc : Char → RTok
  | lit : Char → RTok
deriving DecidableEq

/-- The character a class atom stands for (an identity escape `\c` matches
`c` itself; none of the escaped characters is alphanumeric, so no escape
produced here denotes a character class such as `\d`). -/
def RTok.val : RTok → Char
  | .esc c => c
  | .lit c => c

/-- Whether a token is an unescaped dash, the only token that can form a
range inside the class. -/
def RTok.isDash : RTok → Bool
  | .esc _ => false
  | .lit c => c = '-'

/-- Escaping of one character as done in `filterInput`
(src/global-filter.ts line 200). -/
def escTok (c : Char) : RTok :=
  if c ∈ escapeSet then RTok.esc c else RTok.lit c

/-- Token stream of the class body built by `filterInput`: each member string
of `filteredChars` is escaped character by character and the results are
concatenated (`.map(...).join("")`, src/global-filter.ts lines 199-201). -/
def classTokens (filteredChars : List String) : List RTok :=
  (filteredChars.map (fun s => s.data.map escTok)).flatten

/-- JavaScript semantics of the character-class body: reading tokens left to
right, `atom - atom` forms an inclusive codepoint range (a descending range
makes `new RegExp` throw a `SyntaxError`, modelled by `none`); a dash that is
first, last or not between two atoms is literal.  The result is the list of
(lo, hi) ranges the class matches, a literal atom contributing the singleton
range (c, c). -/
def classRanges : List RTok → Option (List (Char × Char))
  | [] => some []
  | [a] => some [(a.val, a.val)]
  | [a, b] => some [(a.val, a.val), (b.val, b.val)]
  | a :: d :: b :: rest =>
    if d.isDash then
      if a.val ≤ b.val then
        (classRanges rest).map (fun rs => (a.val, b.val) :: rs)
      else none
    else
      (classRanges (d :: b :: rest)).map (fun rs => (a.val, a.val) :: rs)

/-- Membership of a character in the matched set of the class. -/
def inClass (rs : List (Char × Char)) (c : Char) : Bool :=
  rs.any (fun r => decide (r.1 ≤ c) && decide (c ≤ r.2))

/-- Global replacement of every class match by the empty string
(`text.replace(regex, "")` with the `g` flag): since the class matches single
characters, this deletes exactly the characters the class matches. -/
def removeClass (rs : List (Char × Char)) (s : String) : String :=
  String.mk (s.data.filter (fun c => !(inClass rs c)))

/-- Pure value computed by the standalone `filterInput`
(src/global-filter.ts lines 198-204): `none` models the regular-expression
constructor throwing. -/
def filterInputValue (value : String) (filteredChars : List String) :
    Option String :=
  (classRanges (classTokens filteredChars)).map (fun rs => removeClass rs value)

/-- Result of one call to the standalone `filterInput`: the returned string
and the alerts surfaced (in order). -/
structure FilterInputResult where
  value : String
  alerts : List String
deriving DecidableEq

/-- Alert text of `filterInput` (src/global-filter.ts lines 208-209). -/
def filterInputMessage (filteredChars : List String) : String :=
  "<LuiModal>The characters " ++ String.intercalate " and " filteredChars ++
    " are filtered out.</LuiModal>"

/-- The exported `filterInput` (src/global-filter.ts lines 194-213): computes
the filtered value and alerts exactly when the filtered value's length
differs from the input's. -/
def filterInput (value : String) (filteredChars : List String) :
    Option FilterInputResult :=
  match classRanges (classTokens filteredChars) with
  | none => none
  | some rs =>
    let filteredValue := removeClass rs value
    some
      { value := filteredValue
        alerts :=
          if value.length ≠ filteredValue.length then
            [filterInputMessage filteredChars]
          else [] }

/-- Escape list as written, a second time, in `filterPastedText`
(src/global-filter.ts line 124); the source duplicates the regular
expression literal, so the model duplicates the list. -/
def pasteEscapeSet : List Char :=
  ['.', '*', '+', '?', '^', '$', '\x7b', '\x7d', '(', ')', '|', '[', ']', '\\']

/-- Escaping of one character as done in `filterPastedText`. -/
def pasteEscTok (c : Char) : RTok :=
  if c ∈ pasteEscapeSet then RTok.esc c else RTok.lit c

/-- Token stream of the class body built by `filterPastedText`
(src/global-filter.ts lines 122-126). -/
def pasteClassTokens (filteredChars : List String) : List RTok :=
  (filteredChars.map (fun s => s.data.map pasteEscTok)).flatten

/-- The private `GlobalInputFilter.filterPastedText` as a pure function of
the text and the instance's current `filteredChars`
(src/global-filter.ts lines 121-129). -/
def filterPastedText (text : String) (filteredChars : List String) :
    Option String :=
  (classRanges (pasteClassTokens filteredChars)).map
    (fun rs => removeClass rs text)

/-- Characters occurring in the members of a forbidden-character list. -/
def charsOf (filteredChars : List String) : List Char :=
  (filteredChars.map String.data).flatten

lemma string_mk_data (l : List Char) : (String.mk l).data = l := rfl

lemma classTokens_eq_map (F : List String) :
    classTokens F = (charsOf F).map escTok := by
  simp only [classTokens, charsOf, List.map_flatten, List.map_map]
  rfl

lemma escTok_val (c : Char) : (escTok c).val = c := by
  unfold escTok
  split <;> rfl

lemma escTok_isDash (c : Char) : (escTok c).isDash = decide (c = '-') := by
  unfold escTok
  split
  · next h =>
    have hne : ¬(c = '-') := by
      rintro rfl
      exact absurd h (by decide)
    simp [RTok.isDash, hne]
  · rfl

lemma classRanges_no_dash :
    ∀ toks : List RTok, (∀ t ∈ toks, t.isDash = false) →
      classRanges toks = some (toks.map (fun t => (t.val, t.val))) := by
  intro toks
  induction toks with
  | nil => intro _; rfl
  | cons a tail ih =>
    intro h
    cases tail with
    | nil => simp [classRanges]
    | cons d tail2 =>
      cases tail2 with
      | nil => simp [classRanges]
      | cons b rest =>
        have hd : d.isDash = false := h d (by simp)
        have htail : ∀ t ∈ d :: b :: rest, t.isDash = false := by
          intro t ht
          exact h t (List.mem_cons_of_mem a ht)
        simp only [classRanges, hd, Bool.false_eq_true, if_false, ih htail,
          Option.map_some', List.map_cons]

lemma inClass_singletons (cs : List Char) (x : Char) :
    inClass (cs.map fun c => (c, c)) x = decide (x ∈ cs) := by
  induction cs with
  | nil => rfl
  | cons c tl ih =>
    show ((decide (c ≤ x) && decide (x ≤ c)) ||
        inClass (tl.map fun c => (c, c)) x) = decide (x ∈ c :: tl)
    rw [ih, ← Bool.decide_and, ← Bool.decide_or]
    exact decide_eq_decide.mpr (by simp [List.mem_cons, ← le_antisymm_iff, eq_comm])

lemma filterInputValue_no_dash (value : String) (F : List String)
    (hdash : '-' ∉ charsOf F) :
    filterInputValue value F =
      some (String.mk (value.data.filter (fun c => !decide (c ∈ charsOf F)))) := by
  have htoks : ∀ t ∈ classTokens F, t.isDash = false := by
    rw [classTokens_eq_map]
    intro t ht
    rcases List.mem_map.mp ht with ⟨c, hc, rfl⟩
    rw [escTok_isDash]
    simp only [decide_eq_false_iff_not]
    rintro rfl
    exact hdash hc
  have hmap : (classTokens F).map (fun t => (t.val, t.val)) =
      (charsOf F).map (fun c => (c, c)) := by
    rw [classTokens_eq_map, List.map_map]
    apply List.map_congr_left
    intro c _
    simp [escTok_val]
  rw [filterInputValue, classRanges_no_dash _ htoks, Option.map_some', hmap]
  unfold removeClass
  apply congrArg some
  apply congrArg String.mk
  apply List.filter_congr
  intro c _
  rw [inClass_singletons]

lemma removeClass_idem (rs : List (Char × Char)) (s : String) :
    removeClass rs (removeClass rs s) = removeClass rs s := by
  simp [removeClass, List.filter_filter]

/-- C1: the claimed sanitization property fails on the code.  With the
forbidden set ["a", "-", "z"] — a set of single-character strings — the
escaping step leaves the dash untouched, the generated class is the range
a-z, and `filterInput` removes the character m from the input "m" even
though "m" is not a member of the set; the claim requires every character
of the input that is not in F to survive. -/
theorem filterInput_dash_range_removes_unforbidden :
    filterInputValue "m" ["a", "-", "z"] = some "" ∧
    filterInput "m" ["a", "-", "z"] =
      some { value := "", alerts := [filterInputMessage ["a", "-", "z"]] } ∧
    'm' ∉ charsOf ["a", "-", "z"] := by decide

/-- C2: the escaping step does not escape every pattern-special character:
the dash, which is special inside a character class, is emitted bare
(`escTok` keeps it literal).  With the all-special forbidden set
["$", "-", "|"] the built class is the codepoint range from dollar to pipe,
so the non-member "A" is removed from "A" by both `filterInput` and
`filterPastedText`; and with ["z", "-", "a"] the descending range makes the
pattern constructor throw. -/
theorem filterInput_dash_unescaped_range_bug :
    escTok '-' = RTok.lit '-' ∧
    filterInputValue "A" ["$", "-", "|"] = some "" ∧
    'A' ∉ charsOf ["$", "-", "|"] ∧
    filterPastedText "A" ["$", "-", "|"] = some "" ∧
    filterInputValue "x" ["z", "-", "a"] = none := by decide

/-- C8: sanitization is idempotent: whenever the pattern construction
succeeds, filtering an already-filtered string removes nothing further, and
when it throws, both sides throw. -/
theorem filterInput_idempotent (T : String) (F : List String) :
    (filterInputValue T F).bind (fun s => filterInputValue s F) =
      filterInputValue T F := by
  unfold filterInputValue
  cases hc : classRanges (classTokens F) with
  | none => simp
  | some rs => simp [removeClass_idem]

/-- C10: the private paste-path sanitizer `filterPastedText` and the
standalone `filterInput` build the identical escaped character class and are
equivalent as pure text transformations. -/
theorem filterPastedText_eq_filterInputValue (text : String)
    (F : List String) : filterPastedText text F = filterInputValue text F := by
  have h : pasteClassTokens F = classTokens F := rfl
  unfold filterPastedText filterInputValue
  rw [h]

/-- C6: the standalone `filterInput` surfaces an alert if and only if the
returned value's length differs from the input's, and the alert is the fixed
message listing the configured characters joined by " and ". -/
theorem filterInput_alert_iff_length_differs (v : String) (F : List String)
    (r : FilterInputResult) (h : filterInput v F = some r) :
    (r.alerts ≠ [] ↔ v.length ≠ r.value.length) ∧
    r.alerts =
      (if v.length = r.value.length then []
       else ["<LuiModal>The characters " ++ String.intercalate " and " F ++
         " are filtered out.</LuiModal>"]) := by
  unfold filterInput at h
  cases hc : classRanges (classTokens F) with
  | none => rw [hc] at h; exact absurd h (by simp)
  | some rs =>
    rw [hc] at h
    simp only [Option.some.injEq] at h
    subst h
    by_cases hl : v.length = (removeClass rs v).length
    · simp [hl, filterInputMessage]
    · simp [hl, filterInputMessage]

/-- C6 witness: the concrete call `filterInput "a@" ["@", "#"]` returns "a"
and surfaces exactly the " and "-joined alert. -/
theorem filterInput_alert_iff_length_differs_spot :
    (({ value := "a", alerts := [filterInputMessage ["@", "#"]] } :
        FilterInputResult).alerts ≠ [] ↔
      ("a@" : String).length ≠
        ({ value := "a", alerts := [filterInputMessage ["@", "#"]] } :
          FilterInputResult).value.length) ∧
    ({ value := "a", alerts := [filterInputMessage ["@", "#"]] } :
        FilterInputResult).alerts =
      (if ("a@" : String).length =
          ({ value := "a", alerts := [filterInputMessage ["@", "#"]] } :
            FilterInputResult).value.length then []
       else ["<LuiModal>The characters " ++
         String.intercalate " and " ["@", "#"] ++
         " are filtered out.</LuiModal>"]) :=
  filterInput_alert_iff_length_differs "a@" ["@", "#"]
    { value := "a", alerts := [filterInputMessage ["@", "#"]] } (by decide)

/-- Key event kinds accepted by the `eventType` option
(src/global-filter.ts line 11). -/
inductive KeyEventType where
  | keypress
  | keydown
deriving DecidableEq

/-- Name under which a key event kind is registered with the document. -/
def KeyEventType.str : KeyEventType → String
  | .keypress => "keypress"
  | .keydown => "keydown"

/-- Constructor options object (src/global-filter.ts lines 6-13); `none`
models an absent property. -/
structure GlobalFilterOptions where
  filteredChars : Option (List String)
  alertMessage : Option (String → String)
  pasteAlertMessage : Option (List String → String)
  targetSelector : Option String
  eventType : Option KeyEventType
  enablePasteFiltering : Option Bool

/-- Default key alert (src/global-filter.ts lines 30-33). -/
def defaultAlertMessage (char : String) : String :=
  "The character \"" ++ char ++ "\" is not allowed in input fields."

/-- Default paste alert (src/global-filter.ts lines 34-39). -/
def defaultPasteAlertMessage (chars : List String) : String :=
  "The following characters are not allowed and were filtered out: " ++
    String.intercalate ", " chars

/-- Default target selector (src/global-filter.ts lines 40-42). -/
def defaultTargetSelector : String :=
  "input:not([type=\"submit\"]):not([type=\"button\"]):not([type=\"reset\"])"

/-- State of one `GlobalInputFilter` instance
(src/global-filter.ts lines 18-26).  The two handler fields hold the
identity of the registered closure (`some id`) or `null` (`none`). -/
structure GlobalInputFilter where
  filteredChars : List String
  alertMessage : String → String
  pasteAlertMessage : List String → String
  targetSelector : String
  eventType : KeyEventType
  enablePasteFiltering : Bool
  eventHandler : Option Nat
  pasteHandler : Option Nat

/-- The constructor (src/global-filter.ts lines 28-45): absent options fall
back to the documented defaults (`||` never sees a falsy present value here:
arrays, functions and strings are truthy, and `enablePasteFiltering` uses
`!== false`). -/
def mkGlobalInputFilter (o : GlobalFilterOptions) : GlobalInputFilter where
  filteredChars := o.filteredChars.getD ["@", "#"]
  alertMessage := o.alertMessage.getD defaultAlertMessage
  pasteAlertMessage := o.pasteAlertMessage.getD defaultPasteAlertMessage
  targetSelector := o.targetSelector.getD defaultTargetSelector
  eventType := o.eventType.getD KeyEventType.keypress
  enablePasteFiltering := o.enablePasteFiltering.getD true
  eventHandler := none
  pasteHandler := none

/-- The document's listener registry: the listeners in registration order and
a counter supplying fresh closure identities. -/
structure DocListeners where
  listeners : List (String × Nat)
  nextId : Nat
deriving DecidableEq

/-- The registry before any registration. -/
def emptyDoc : DocListeners where
  listeners := []
  nextId := 0

/-- DOM `document.addEventListener`: appends, except that re-adding an
already-registered (type, callback) pair is a no-op. -/
def DocListeners.add (d : DocListeners) (ty : String) (h : Nat) :
    DocListeners :=
  if (ty, h) ∈ d.listeners then d
  else { d with listeners := d.listeners ++ [(ty, h)] }

/-- DOM `document.removeEventListener`: drops the (type, callback) pair. -/
def DocListeners.remove (d : DocListeners) (ty : String) (h : Nat) :
    DocListeners :=
  { d with listeners := d.listeners.filter (fun p => !decide (p = (ty, h))) }

/-- `GlobalInputFilter.destroy` (src/global-filter.ts lines 134-143):
unregisters and nulls each handler that is present. -/
def GlobalInputFilter.destroy (f : GlobalInputFilter) (d : DocListeners) :
    GlobalInputFilter × DocListeners :=
  let fd1 : GlobalInputFilter × DocListeners :=
    match f.eventHandler with
    | some h => ({ f with eventHandler := none }, d.remove f.eventType.str h)
    | none => (f, d)
  match fd1.1.pasteHandler with
  | some h => ({ fd1.1 with pasteHandler := none }, fd1.2.remove "paste" h)
  | none => fd1

/-- Handler creation and registration phase of `GlobalInputFilter.init`
(src/global-filter.ts lines 55-115): a fresh key-handler closure is created
and, when paste filtering is enabled, a fresh paste-handler closure; the
paste listener is registered first (line 112), the key listener last
(line 115). -/
def GlobalInputFilter.initRegister (f1 : GlobalInputFilter)
    (d1 : DocListeners) : GlobalInputFilter × DocListeners :=
  let keyId := d1.nextId
  let f2 := { f1 with eventHandler := some keyId }
  let d2 : DocListeners := { d1 with nextId := d1.nextId + 1 }
  if f2.enablePasteFiltering then
    let pasteId := d2.nextId
    let f3 := { f2 with pasteHandler := some pasteId }
    let d3 : DocListeners := { d2 with nextId := d2.nextId + 1 }
    (f3, (d3.add "paste" pasteId).add f2.eventType.str keyId)
  else
    (f2, d2.add f2.eventType.str keyId)

/-- `GlobalInputFilter.init` (src/global-filter.ts lines 50-116): tears down
existing handlers first (lines 51-53), then creates and registers the new
ones. -/
def GlobalInputFilter.init (f : GlobalInputFilter) (d : DocListeners) :
    GlobalInputFilter × DocListeners :=
  if f.eventHandler.isSome || f.pasteHandler.isSome then
    (f.destroy d).1.initRegister (f.destroy d).2
  else
    f.initRegister d

/-- `GlobalInputFilter.setFilteredChars` (src/global-filter.ts
lines 148-150). -/
def GlobalInputFilter.setFilteredChars (f : GlobalInputFilter)
    (chars : List String) : GlobalInputFilter :=
  { f with filteredChars := chars }

/-- One external call on the instance's lifecycle interface. -/
inductive FilterOp where
  | init
  | destroy

/-- Apply one lifecycle call to the instance-and-document state. -/
def applyOp (s : GlobalInputFilter × DocListeners) :
    FilterOp → GlobalInputFilter × DocListeners
  | .init => s.1.init s.2
  | .destroy => s.1.destroy s.2

/-- Run a sequence of lifecycle calls. -/
def runOps (s : GlobalInputFilter × DocListeners) :
    List FilterOp → GlobalInputFilter × DocListeners
  | [] => s
  | op :: rest => runOps (applyOp s op) rest

/-- The registered listeners for the instance's key event kind. -/
def keyListeners (f : GlobalInputFilter) (d : DocListeners) :
    List (String × Nat) :=
  d.listeners.filter (fun p => decide (p.1 = f.eventType.str))

/-- The registered listeners for the paste event. -/
def pasteListeners (d : DocListeners) : List (String × Nat) :=
  d.listeners.filter (fun p => decide (p.1 = "paste"))

lemma keyTy_ne_paste (t : KeyEventType) : t.str ≠ "paste" := by
  cases t <;> decide

/-- Well-formedness of the single-instance world: every registered listener
is one of the instance's two current handlers, handler identities are below
the allocation counter, and the registry has no duplicate entries. -/
def LifecycleInv (f : GlobalInputFilter) (d : DocListeners) : Prop :=
  (∀ p ∈ d.listeners, p.2 < d.nextId) ∧
  (∀ p ∈ d.listeners,
      (p.1 = f.eventType.str ∧ f.eventHandler = some p.2) ∨
      (p.1 = "paste" ∧ f.pasteHandler = some p.2)) ∧
  d.listeners.Nodup

lemma nodup_all_eq_length_le_one {α : Type} (l : List α) (x : α)
    (hn : l.Nodup) (hall : ∀ y ∈ l, y = x) : l.length ≤ 1 := by
  cases l with
  | nil => simp
  | cons a tl =>
    cases tl with
    | nil => simp
    | cons b tl2 =>
      exfalso
      have hnotmem : a ∉ b :: tl2 := (List.nodup_cons.mp hn).1
      have ha := hall a (by simp)
      have hb := hall b (by simp)
      exact hnotmem (by rw [ha, hb]; simp)

lemma destroy_noop (f : GlobalInputFilter) (d : DocListeners)
    (he : f.eventHandler = none) (hp : f.pasteHandler = none) :
    f.destroy d = (f, d) := by
  simp [GlobalInputFilter.destroy, he, hp]

lemma destroy_fst (f : GlobalInputFilter) (d : DocListeners) :
    (f.destroy d).1 =
      { f with eventHandler := none, pasteHandler := none } := by
  obtain ⟨fc, am, pam, ts, et, ep, eh, ph⟩ := f
  cases eh <;> cases ph <;> rfl

lemma inv_listeners_nil (f : GlobalInputFilter) (d : DocListeners)
    (h : LifecycleInv f d) (he : f.eventHandler = none)
    (hp : f.pasteHandler = none) : d.listeners = [] := by
  obtain ⟨-, hB, -⟩ := h
  rw [List.eq_nil_iff_forall_not_mem]
  intro p hpmem
  rcases hB p hpmem with ⟨-, hcontra⟩ | ⟨-, hcontra⟩
  · rw [he] at hcontra; exact Option.noConfusion hcontra
  · rw [hp] at hcontra; exact Option.noConfusion hcontra

lemma destroy_inv (f : GlobalInputFilter) (d : DocListeners)
    (h : LifecycleInv f d) :
    LifecycleInv (f.destroy d).1 (f.destroy d).2 := by
  obtain ⟨hb, hB, hnd⟩ := h
  obtain ⟨fc, am, pam, ts, et, ep, eh, ph⟩ := f
  cases eh with
  | none =>
    cases ph with
    | none => exact ⟨hb, hB, hnd⟩
    | some phv =>
      refine ⟨?_, ?_, ?_⟩
      · intro p hpmem
        exact hb p (List.mem_filter.mp hpmem).1
      · intro p hpmem
        obtain ⟨hpl, hpne⟩ := List.mem_filter.mp hpmem
        rcases hB p hpl with ⟨h1, h2⟩ | ⟨h1, h2⟩
        · exact Or.inl ⟨h1, h2⟩
        · exfalso
          apply absurd hpne
          simp only [Option.some.injEq] at h2
          simp [Prod.ext_iff, h1, h2]
      · exact hnd.filter _
  | some ehv =>
    cases ph with
    | none =>
      refine ⟨?_, ?_, ?_⟩
      · intro p hpmem
        exact hb p (List.mem_filter.mp hpmem).1
      · intro p hpmem
        obtain ⟨hpl, hpne⟩ := List.mem_filter.mp hpmem
        rcases hB p hpl with ⟨h1, h2⟩ | ⟨h1, h2⟩
        · exfalso
          apply absurd hpne
          simp only [Option.some.injEq] at h2
          simp [Prod.ext_iff, h1, h2]
        · exact Or.inr ⟨h1, h2⟩
      · exact hnd.filter _
    | some phv =>
      refine ⟨?_, ?_, ?_⟩
      · intro p hpmem
        have := (List.mem_filter.mp hpmem).1
        exact hb p (List.mem_filter.mp this).1
      · intro p hpmem
        obtain ⟨hp2, hpne2⟩ := List.mem_filter.mp hpmem
        obtain ⟨hpl, hpne1⟩ := List.mem_filter.mp hp2
        rcases hB p hpl with ⟨h1, h2⟩ | ⟨h1, h2⟩
        · exfalso
          apply absurd hpne1
          simp only [Option.some.injEq] at h2
          simp [Prod.ext_iff, h1, h2]
        · exfalso
          apply absurd hpne2
          simp only [Option.some.injEq] at h2
          simp [Prod.ext_iff, h1, h2]
      · exact (hnd.filter _).filter _

lemma initRegister_inv (f1 : GlobalInputFilter) (d1 : DocListeners)
    (h1 : LifecycleInv f1 d1) (he : f1.eventHandler = none)
    (hp : f1.pasteHandler = none) :
    LifecycleInv (f1.initRegister d1).1 (f1.initRegister d1).2 := by
  have hnil : d1.listeners = [] := inv_listeners_nil f1 d1 h1 he hp
  obtain ⟨fc, am, pam, ts, et, ep, eh, ph⟩ := f1
  obtain ⟨ls, n⟩ := d1
  simp only at hnil
  subst hnil
  cases ep with
  | true =>
    refine ⟨?_, ?_, ?_⟩ <;>
      simp [GlobalInputFilter.initRegister, DocListeners.add, Prod.ext_iff,
        keyTy_ne_paste et]
    · intro a b hab
      rcases hab with ⟨rfl, rfl⟩ | ⟨rfl, rfl⟩ <;> omega
    · intro a b hab
      rcases hab with ⟨rfl, rfl⟩ | ⟨rfl, rfl⟩
      · exact Or.inr ⟨rfl, rfl⟩
      · exact Or.inl ⟨rfl, rfl⟩
  | false =>
    subst hp
    refine ⟨?_, ?_, ?_⟩ <;>
      simp [GlobalInputFilter.initRegister, DocListeners.add, Prod.ext_iff]

lemma init_inv (f : GlobalInputFilter) (d : DocListeners)
    (h : LifecycleInv f d) :
    LifecycleInv (f.init d).1 (f.init d).2 := by
  unfold GlobalInputFilter.init
  split
  · exact initRegister_inv _ _ (destroy_inv f d h)
      (by rw [destroy_fst]) (by rw [destroy_fst])
  · next hg =>
    have he : f.eventHandler = none := by
      cases hev : f.eventHandler with
      | none => rfl
      | some v => exact absurd (by simp [hev]) hg
    have hp : f.pasteHandler = none := by
      cases hpv : f.pasteHandler with
      | none => rfl
      | some v => exact absurd (by simp [hpv]) hg
    exact initRegister_inv f d h he hp

lemma runOps_inv (ops : List FilterOp) :
    ∀ s : GlobalInputFilter × DocListeners, LifecycleInv s.1 s.2 →
      LifecycleInv (runOps s ops).1 (runOps s ops).2 := by
  induction ops with
  | nil => intro s h; exact h
  | cons op rest ih =>
    intro s h
    apply ih
    cases op
    · exact init_inv s.1 s.2 h
    · exact destroy_inv s.1 s.2 h

lemma inv_initial (o : GlobalFilterOptions) :
    LifecycleInv (mkGlobalInputFilter o) emptyDoc := by
  refine ⟨?_, ?_, ?_⟩ <;> simp [emptyDoc]

lemma keyListeners_length_le_one (f : GlobalInputFilter) (d : DocListeners)
    (h : LifecycleInv f d) : (keyListeners f d).length ≤ 1 := by
  obtain ⟨-, hB, hnd⟩ := h
  cases heh : f.eventHandler with
  | none =>
    have hempty : keyListeners f d = [] := by
      rw [keyListeners, List.filter_eq_nil_iff]
      intro p hpmem hpred
      rcases hB p hpmem with ⟨-, h2⟩ | ⟨h1, -⟩
      · rw [heh] at h2; exact Option.noConfusion h2
      · exact keyTy_ne_paste f.eventType
          (by rw [← of_decide_eq_true hpred, h1])
    simp [hempty]
  | some kh =>
    apply nodup_all_eq_length_le_one _ (f.eventType.str, kh)
    · exact hnd.filter _
    · intro y hy
      obtain ⟨hyl, hypred⟩ := List.mem_filter.mp hy
      rcases hB y hyl with ⟨h1, h2⟩ | ⟨h1, -⟩
      · rw [heh] at h2
        rw [Prod.ext_iff]
        exact ⟨of_decide_eq_true hypred, (Option.some.inj h2).symm⟩
      · exact absurd (by rw [← of_decide_eq_true hypred, h1])
          (keyTy_ne_paste f.eventType)

lemma pasteListeners_length_le_one (f : GlobalInputFilter) (d : DocListeners)
    (h : LifecycleInv f d) : (pasteListeners d).length ≤ 1 := by
  obtain ⟨-, hB, hnd⟩ := h
  cases hph : f.pasteHandler with
  | none =>
    have hempty : pasteListeners d = [] := by
      rw [pasteListeners, List.filter_eq_nil_iff]
      intro p hpmem hpred
      rcases hB p hpmem with ⟨h1, -⟩ | ⟨-, h2⟩
      · exact keyTy_ne_paste f.eventType
          (by rw [← h1, of_decide_eq_true hpred])
      · rw [hph] at h2; exact Option.noConfusion h2
    simp [hempty]
  | some ph =>
    apply nodup_all_eq_length_le_one _ ("paste", ph)
    · exact hnd.filter _
    · intro y hy
      obtain ⟨hyl, hypred⟩ := List.mem_filter.mp hy
      rcases hB y hyl with ⟨h1, -⟩ | ⟨h1, h2⟩
      · exact absurd (by rw [← h1, of_decide_eq_true hypred])
          (keyTy_ne_paste f.eventType)
      · rw [hph] at h2
        rw [Prod.ext_iff]
        exact ⟨of_decide_eq_true hypred, (Option.some.inj h2).symm⟩

/-- C3: over every sequence of init and destroy calls on one instance
starting from an unregistered document, at most one key listener and at most
one paste listener are registered at any time; init-init-destroy leaves an
empty registry (no leaked duplicate handler); and destroy on an inactive
instance is a no-op, hence safe to repeat. -/
theorem lifecycle_at_most_one_listener :
    (∀ (o : GlobalFilterOptions) (ops : List FilterOp),
      (keyListeners (runOps (mkGlobalInputFilter o, emptyDoc) ops).1
          (runOps (mkGlobalInputFilter o, emptyDoc) ops).2).length ≤ 1 ∧
      (pasteListeners
          (runOps (mkGlobalInputFilter o, emptyDoc) ops).2).length ≤ 1) ∧
    (∀ o : GlobalFilterOptions,
      (runOps (mkGlobalInputFilter o, emptyDoc)
          [FilterOp.init, FilterOp.init, FilterOp.destroy]).2.listeners = []) ∧
    (∀ (f : GlobalInputFilter) (d : DocListeners),
      f.eventHandler = none → f.pasteHandler = none →
      f.destroy d = (f, d)) := by
  refine ⟨?_, ?_, ?_⟩
  · intro o ops
    have hinv := runOps_inv ops (mkGlobalInputFilter o, emptyDoc)
      (inv_initial o)
    exact ⟨keyListeners_length_le_one _ _ hinv,
      pasteListeners_length_le_one _ _ hinv⟩
  · intro o
    have hinv := runOps_inv [FilterOp.init, FilterOp.init, FilterOp.destroy]
      (mkGlobalInputFilter o, emptyDoc) (inv_initial o)
    set s3 := runOps (mkGlobalInputFilter o, emptyDoc)
      [FilterOp.init, FilterOp.init, FilterOp.destroy] with hs3
    have hlast : s3 = (applyOp (applyOp (applyOp
        (mkGlobalInputFilter o, emptyDoc) FilterOp.init) FilterOp.init)
        FilterOp.destroy) := rfl
    have he : s3.1.eventHandler = none := by
      rw [hlast]
      show (GlobalInputFilter.destroy _ _).1.eventHandler = none
      rw [destroy_fst]
    have hp : s3.1.pasteHandler = none := by
      rw [hlast]
      show (GlobalInputFilter.destroy _ _).1.pasteHandler = none
      rw [destroy_fst]
    exact inv_listeners_nil s3.1 s3.2 hinv he hp
  · intro f d he hp
    exact destroy_noop f d he hp

/-- Options object with every property absent. -/
def optionsNone : GlobalFilterOptions where
  filteredChars := none
  alertMessage := none
  pasteAlertMessage := none
  targetSelector := none
  eventType := none
  enablePasteFiltering := none

/-- C3 witness: on the default-constructed, inactive instance, destroy is a
no-op, and init-init-destroy empties the registry. -/
theorem lifecycle_at_most_one_listener_spot :
    GlobalInputFilter.destroy (mkGlobalInputFilter optionsNone) emptyDoc =
      (mkGlobalInputFilter optionsNone, emptyDoc) ∧
    (runOps (mkGlobalInputFilter optionsNone, emptyDoc)
        [FilterOp.init, FilterOp.init, FilterOp.destroy]).2.listeners = [] :=
  ⟨lifecycle_at_most_one_listener.2.2 (mkGlobalInputFilter optionsNone)
      emptyDoc rfl rfl,
    lifecycle_at_most_one_listener.2.1 optionsNone⟩

/-- Boolean prefix test on character lists. -/
def listPrefixB : List Char → List Char → Bool
  | [], _ => true
  | _ :: _, [] => false
  | a :: as, b :: bs => a == b && listPrefixB as bs

/-- Boolean contiguous-substring test on character lists. -/
def listInfixB (needle : List Char) : List Char → Bool
  | [] => needle.isEmpty
  | b :: tl => listPrefixB needle (b :: tl) || listInfixB needle tl

/-- JavaScript `haystack.includes(sub)`. -/
def jsIncludes (s sub : String) : Bool :=
  listInfixB sub.data s.data

lemma listInfixB_singleton (c : Char) (l : List Char) :
    listInfixB [c] l = l.contains c := by
  induction l with
  | nil => rfl
  | cons b tl ih =>
    simp only [listInfixB, listPrefixB, ih, Bool.and_true,
      List.contains_cons]

/-- The key-event closure created by `init` (src/global-filter.ts
lines 56-69), as a pure function of the instance's current state (the
closure dereferences `this` at event time) and the event data: whether the
target owns a `matches` method, whether it matches the selector, and the
event's key.  Returns whether the default action was prevented and the
alerts raised. -/
def keyEvent (f : GlobalInputFilter) (targetHasMatches targetMatches : Bool)
    (key : String) : Bool × List String :=
  if targetHasMatches && targetMatches then
    if f.filteredChars.contains key then (true, [f.alertMessage key])
    else (false, [])
  else (false, [])

/-- State of the input element the paste event targets. -/
structure ElemState where
  value : String
  selectionStart : Option Nat
  selectionEnd : Option Nat
  hasSetRangeText : Bool
deriving DecidableEq

/-- `setRangeText(repl, start, stop, "end")`: replaces the [start, stop)
slice of the value. -/
def setRangeTextEnd (value : String) (start stop : Nat) (repl : String) :
    String :=
  String.mk (value.data.take start ++ repl.data ++ value.data.drop stop)

/-- Observable outcome of one paste event: whether the default paste was
suppressed, the element's value afterwards, whether a synthetic input event
was dispatched, and the alerts raised. -/
structure PasteOutcome where
  defaultPrevented : Bool
  newValue : String
  inputDispatched : Bool
  alerts : List String
deriving DecidableEq

/-- Outcome when the handler falls through without acting. -/
def pasteNoOp (el : ElemState) : PasteOutcome where
  defaultPrevented := false
  newValue := el.value
  inputDispatched := false
  alerts := []

/-- The paste-event closure created by `init` (src/global-filter.ts
lines 73-110) as a pure function of the instance's current state and the
event data.  `none` models the handler throwing (only possible inside
`filterPastedText`, after `preventDefault`); the clipboard payload is
`none` when absent.  Mirrors the source's order: selector check, payload
read, `includes` scan over `filteredChars`, then — only when something was
found — `preventDefault`, sanitize, range insert (or value append when
`setRangeText` is unsupported), synthetic input dispatch, and the paste
alert with the found characters. -/
def pasteEvent (f : GlobalInputFilter)
    (targetHasMatches targetMatches : Bool) (clipboardData : Option String)
    (el : ElemState) : Option PasteOutcome :=
  if targetHasMatches && targetMatches then
    match clipboardData with
    | some pastedText =>
      let found := f.filteredChars.filter (fun ch => jsIncludes pastedText ch)
      if 0 < found.length then
        match filterPastedText pastedText f.filteredChars with
        | none => none
        | some filteredText =>
          some
            { defaultPrevented := true
              newValue :=
                if el.hasSetRangeText then
                  setRangeTextEnd el.value (el.selectionStart.getD 0)
                    (el.selectionEnd.getD 0) filteredText
                else el.value ++ filteredText
              inputDispatched := true
              alerts := [f.pasteAlertMessage found] }
      else some (pasteNoOp el)
    | none => some (pasteNoOp el)
  else some (pasteNoOp el)

/-- C4: while a session is active, a key event on a matching target whose
key is in the forbidden set as currently held — here updated through
`setFilteredChars` after init, so the change affects the next event without
re-init — prevents the default action and raises exactly the one alert
produced by `alertMessage key`; any other key event is left untouched and
raises nothing. -/
theorem keyEvent_blocks_forbidden (f : GlobalInputFilter) (cs : List String)
    (hasM tm : Bool) (key : String)
    (_hactive : (f.setFilteredChars cs).eventHandler.isSome = true) :
    (hasM = true → tm = true → key ∈ cs →
      keyEvent (f.setFilteredChars cs) hasM tm key =
        (true, [f.alertMessage key])) ∧
    (¬(hasM = true ∧ tm = true ∧ key ∈ cs) →
      keyEvent (f.setFilteredChars cs) hasM tm key = (false, [])) := by
  constructor
  · rintro rfl rfl hk
    have hc : cs.contains key = true := List.elem_iff.mpr hk
    simp [keyEvent, GlobalInputFilter.setFilteredChars, hc, hk]
  · intro hnot
    cases hasM with
    | false => simp [keyEvent]
    | true =>
      cases tm with
      | false => simp [keyEvent]
      | true =>
        have hk : key ∉ cs := by
          intro hk
          exact hnot ⟨rfl, rfl, hk⟩
        simp [keyEvent, GlobalInputFilter.setFilteredChars, hk]

/-- An instance whose key handler is registered (as after `init`). -/
def activeFilter : GlobalInputFilter :=
  { mkGlobalInputFilter optionsNone with eventHandler := some 0 }

/-- C4 witness: after replacing the forbidden set with ["x"] on an active
instance, typing "x" into a matching element is suppressed with exactly the
default alert for "x". -/
theorem keyEvent_blocks_forbidden_spot :
    keyEvent (activeFilter.setFilteredChars ["x"]) true true "x" =
      (true, [defaultAlertMessage "x"]) :=
  ((keyEvent_blocks_forbidden activeFilter ["x"] true true "x" rfl).1
    rfl rfl (by decide)).trans (by decide)

/-- C7: a paste event whose clipboard payload is absent, or contains no
member of the forbidden set, is a complete no-op: no suppression, value
unchanged, no synthetic input event, no alert. -/
theorem pasteEvent_noop_when_nothing_found (f : GlobalInputFilter)
    (hasM tm : Bool) (clip : Option String) (el : ElemState)
    (h : clip = none ∨ ∃ text, clip = some text ∧
      ∀ s ∈ f.filteredChars, jsIncludes text s = false) :
    pasteEvent f hasM tm clip el = some (pasteNoOp el) := by
  cases hasM with
  | false => simp [pasteEvent]
  | true =>
    cases tm with
    | false => simp [pasteEvent]
    | true =>
      rcases h with rfl | ⟨text, rfl, hnone⟩
      · simp [pasteEvent]
      · have hfil : f.filteredChars.filter (fun ch => jsIncludes text ch)
            = [] := by
          rw [List.filter_eq_nil_iff]
          intro s hs
          simp [hnone s hs]
        simp [pasteEvent, hfil]

/-- C7 witness: pasting "abc" (no forbidden characters) with the default
set, and pasting with an absent payload, both leave everything untouched. -/
theorem pasteEvent_noop_when_nothing_found_spot :
    pasteEvent (mkGlobalInputFilter optionsNone) true true (some "abc")
        { value := "v", selectionStart := none, selectionEnd := none,
          hasSetRangeText := true } =
      some (pasteNoOp
        { value := "v", selectionStart := none, selectionEnd := none,
          hasSetRangeText := true }) :=
  pasteEvent_noop_when_nothing_found (mkGlobalInputFilter optionsNone)
    true true (some "abc")
    { value := "v", selectionStart := none, selectionEnd := none,
      hasSetRangeText := true }
    (Or.inr ⟨"abc", rfl, by decide⟩)

/-- C5: pasting text that contains at least one forbidden character into a
matching element suppresses the default paste, commits the sanitized payload
(every forbidden-character occurrence removed) at the selection range — or
appended, when range insertion is unsupported — dispatches the synthetic
input event, and raises exactly one alert whose character sequence is the
set of distinct forbidden characters occurring in the payload, in the
declaration order of the forbidden set (a filter of that set, hence a
duplicate-free sublist), not in occurrence order.  Stated for forbidden sets
of single, duplicate-free, non-dash characters, on which the built pattern
matches exactly the literal members. -/
theorem pasteEvent_sanitizes_and_reports (f : GlobalInputFilter)
    (text : String) (el : ElemState)
    (hsingle : ∀ s ∈ f.filteredChars, ∃ c, s.data = [c])
    (hnodup : f.filteredChars.Nodup)
    (hdash : '-' ∉ charsOf f.filteredChars)
    (hfound : ∃ s ∈ f.filteredChars, jsIncludes text s = true) :
    pasteEvent f true true (some text) el =
      some
        { defaultPrevented := true
          newValue :=
            if el.hasSetRangeText then
              String.mk (el.value.data.take (el.selectionStart.getD 0) ++
                text.data.filter
                  (fun c => !decide (c ∈ charsOf f.filteredChars)) ++
                el.value.data.drop (el.selectionEnd.getD 0))
            else
              el.value ++ String.mk (text.data.filter
                (fun c => !decide (c ∈ charsOf f.filteredChars)))
          inputDispatched := true
          alerts := [f.pasteAlertMessage
            (f.filteredChars.filter (fun s => jsIncludes text s))] } ∧
    (f.filteredChars.filter (fun s => jsIncludes text s)).Sublist
      f.filteredChars ∧
    (f.filteredChars.filter (fun s => jsIncludes text s)).Nodup ∧
    (∀ s, s ∈ f.filteredChars.filter (fun s => jsIncludes text s) ↔
      s ∈ f.filteredChars ∧ ∃ c, s.data = [c] ∧ c ∈ text.data) := by
  have hne : f.filteredChars.filter (fun ch => jsIncludes text ch) ≠ [] := by
    rcases hfound with ⟨s, hsF, hocc⟩
    intro hnil
    rw [List.filter_eq_nil_iff] at hnil
    exact hnil s hsF (by simp [hocc])
  have hlen :
      0 < (f.filteredChars.filter (fun ch => jsIncludes text ch)).length :=
    List.length_pos.mpr hne
  have hpt : filterPastedText text f.filteredChars =
      some (String.mk (text.data.filter
        (fun c => !decide (c ∈ charsOf f.filteredChars)))) := by
    rw [show filterPastedText text f.filteredChars =
        filterInputValue text f.filteredChars from rfl]
    exact filterInputValue_no_dash text f.filteredChars hdash
  refine ⟨?_, List.filter_sublist _, hnodup.filter _, ?_⟩
  · simp [pasteEvent, hlen, hpt, setRangeTextEnd]
  · intro s
    rw [List.mem_filter]
    constructor
    · rintro ⟨hsF, hocc⟩
      obtain ⟨c, hc⟩ := hsingle s hsF
      refine ⟨hsF, c, hc, ?_⟩
      rw [jsIncludes, hc, listInfixB_singleton] at hocc
      exact List.elem_iff.mp hocc
    · rintro ⟨hsF, c, hc, hmem⟩
      refine ⟨hsF, ?_⟩
      rw [jsIncludes, hc, listInfixB_singleton]
      exact List.elem_iff.mpr hmem

/-- The element the C5 witness pastes into: empty value, collapsed selection
at the start, range insertion supported. -/
def elSpot : ElemState where
  value := ""
  selectionStart := none
  selectionEnd := none
  hasSetRangeText := true

/-- C5 witness: pasting "a@b#c" with the default forbidden set ["@", "#"]
commits "abc", suppresses the default, dispatches the input event, and
reports ["@", "#"] in declaration order. -/
theorem pasteEvent_sanitizes_and_reports_spot :
    pasteEvent (mkGlobalInputFilter optionsNone) true true (some "a@b#c")
        elSpot =
      some
        { defaultPrevented := true
          newValue := "abc"
          inputDispatched := true
          alerts := [defaultPasteAlertMessage ["@", "#"]] } :=
  (pasteEvent_sanitizes_and_reports (mkGlobalInputFilter optionsNone)
      "a@b#c" elSpot
      (by
        intro s hs
        rcases List.mem_cons.mp hs with rfl | hs2
        · exact ⟨'@', rfl⟩
        · rcases List.mem_cons.mp hs2 with rfl | h3
          · exact ⟨'#', rfl⟩
          · cases h3)
      (by decide) (by decide)
      ⟨"@", by decide, by decide⟩).1.trans (by decide)

/-- A store of array objects, modelling JavaScript array identity: an array
value lives in a cell, and fields such as `this.filteredChars` hold cell
references.  Needed only to state aliasing properties, which plain immutable
values cannot express. -/
structure ArrayStore where
  cells : List (List String)
deriving DecidableEq

/-- Dereference an array reference. -/
def ArrayStore.read (st : ArrayStore) (r : Nat) : List String :=
  st.cells.getD r []

/-- Mutate the array a reference points to (in JavaScript: in-place mutation
of the array object, e.g. `arr.push(...)` or index assignment). -/
def ArrayStore.write (st : ArrayStore) (r : Nat) (v : List String) :
    ArrayStore :=
  ⟨st.cells.set r v⟩

/-- Allocate a fresh array object. -/
def ArrayStore.alloc (st : ArrayStore) (v : List String) :
    ArrayStore × Nat :=
  (⟨st.cells ++ [v]⟩, st.cells.length)

/-- `GlobalInputFilter.getFilteredChars` (src/global-filter.ts
lines 155-157): `[...this.filteredChars]` allocates a fresh array holding a
copy of the elements of the array the instance's field references, and
returns the fresh reference. -/
def getFilteredCharsRef (st : ArrayStore) (charsRef : Nat) :
    ArrayStore × Nat :=
  st.alloc (st.read charsRef)

/-- C9: `getFilteredChars` returns a defensive copy: the returned reference
is distinct from the internally held one, the copy is equal by value to the
internal array, and any mutation through the returned reference leaves the
internal array — and hence the outcome of any subsequent filtering
operation over it — unchanged. -/
theorem getFilteredChars_defensive_copy (st : ArrayStore) (r : Nat)
    (hr : r < st.cells.length) :
    (getFilteredCharsRef st r).2 ≠ r ∧
    (getFilteredCharsRef st r).1.read (getFilteredCharsRef st r).2 =
      st.read r ∧
    ∀ v : List String,
      ((getFilteredCharsRef st r).1.write
          (getFilteredCharsRef st r).2 v).read r = st.read r ∧
      ∀ text : String,
        filterInputValue text
            (((getFilteredCharsRef st r).1.write
              (getFilteredCharsRef st r).2 v).read r) =
          filterInputValue text (st.read r) := by
  have hne : st.cells.length ≠ r := Nat.ne_of_gt hr
  refine ⟨hne, ?_, ?_⟩
  · simp only [getFilteredCharsRef, ArrayStore.alloc, ArrayStore.read,
      List.getD_eq_getElem?_getD]
    rw [List.getElem?_append_right (Nat.le_refl _)]
    simp
  · intro v
    have hread : ((getFilteredCharsRef st r).1.write
        (getFilteredCharsRef st r).2 v).read r = st.read r := by
      simp only [getFilteredCharsRef, ArrayStore.alloc, ArrayStore.write,
        ArrayStore.read, List.getD_eq_getElem?_getD]
      rw [List.getElem?_set_ne hne, List.getElem?_append_left hr]
    exact ⟨hread, fun text => by rw [hread]⟩

/-- C9 witness: on a store holding the default forbidden set, the copy is a
fresh reference, and overwriting the copy with ["z"] does not change what
`filterInput` computes from the internal array. -/
theorem getFilteredChars_defensive_copy_spot :
    (getFilteredCharsRef ⟨[["@", "#"]]⟩ 0).2 ≠ 0 ∧
    filterInputValue "a@"
        (((getFilteredCharsRef ⟨[["@", "#"]]⟩ 0).1.write
          (getFilteredCharsRef ⟨[["@", "#"]]⟩ 0).2 ["z"]).read 0) =
      filterInputValue "a@" ((⟨[["@", "#"]]⟩ : ArrayStore).read 0) :=
  ⟨(getFilteredChars_defensive_copy ⟨[["@", "#"]]⟩ 0 (by decide)).1,
   ((getFilteredChars_defensive_copy ⟨[["@", "#"]]⟩ 0
      (by decide)).2.2 ["z"]).2 "a@"⟩
